import Mathlib

/-!
Shallow embedding of `src/RotatingSquare.js`: a canvas app that draws a
square (two triangles, six vertex pairs) rotating about a transform built
from the currently selected pivot vertex, with the pivot chosen by the
keys r/g/b/w and the rotation angle driven by a sawtooth animation loop.

Numeric model: JavaScript numbers are modelled by `ℚ` where the program
only does field arithmetic (all constants involved are exactly
representable), and by `ℝ` where the rotation angle goes through
`cos`/`sin` (DOMMatrix.rotate works in degrees).
-/

namespace RotatingSquare

/-- The `vertices` Float32Array (line 23): twelve scalars, i.e. six (x,y)
pairs forming two triangles.  All entries are ±0.5, exact in ℚ. -/
def verticesArr : List ℚ :=
  [-1/2, -1/2, 1/2, -1/2, 1/2, 1/2, -1/2, -1/2, 1/2, 1/2, -1/2, 1/2]

/-- `numPoints = vertices.length / 2` (line 31). -/
def numPoints : ℕ := verticesArr.length / 2

/-- Reading `vertices[j]` for an integer index `j`: a Float32Array read is
`undefined` (here `none`) when the index is negative or past the end. -/
def arrGet (j : ℤ) : Option ℚ :=
  if 0 ≤ j then verticesArr.get? j.toNat else none

/-- `getVertex(i)` (lines 94–97): `j = (i % numPoints) * 2`, result
`[vertices[j], vertices[j+1]]`.  JavaScript `%` on integers is the
truncated remainder, `Int.tmod`. -/
def getVertex (i : ℤ) : Option ℚ × Option ℚ :=
  let j := (Int.tmod i (numPoints : ℤ)) * 2
  (arrGet j, arrGet (j + 1))

/-- The vertex pair actually used by the draw loop at index `i < numPoints`
(there both components of `getVertex i` are defined; the default 0 is
never reached for in-range indices). -/
def getVertexN (i : ℕ) : ℚ × ℚ :=
  ((getVertex (i : ℤ)).1.getD 0, (getVertex (i : ℤ)).2.getD 0)

/-- `mapToViewport(x, y, n = 5)` (lines 85–87): returns
`[((x + n/2) * w) / n, ((-y + n/2) * h) / n]`, reading the globals `w`,
`h` (here explicit arguments). -/
def mapToViewport (w h x y : ℚ) (n : ℚ := 5) : ℚ × ℚ :=
  ((x + n / 2) * w / n, (-y + n / 2) * h / n)

/-- `indexCoord` (lines 57–62): the key → pivot-index table. -/
def indexCoord (k : Char) : Option ℕ :=
  if k = 'r' then some 0
  else if k = 'g' then some 1
  else if k = 'b' then some 2
  else if k = 'w' then some 3
  else none

/-- The keydown handler (lines 67–74): if the key is one of r/g/b/w,
assign `edge = indexCoord[key]`; otherwise leave `edge` unchanged. -/
def onKey (k : Char) (edge : ℕ) : ℕ :=
  if k = 'r' ∨ k = 'g' ∨ k = 'b' ∨ k = 'w' then (indexCoord k).getD edge
  else edge

/-- The states of the global `edge` reachable from its initial value 0
(line 51) under any sequence of keydown events. -/
inductive reachableEdge : ℕ → Prop
  | init : reachableEdge 0
  | step (k : Char) (s : ℕ) : reachableEdge s → reachableEdge (onKey k s)

/-- One tick of the animation state update (lines 161–164):
`rotation -= 2; if (rotation < -360) rotation = 0;`. -/
def angleStep (a : ℤ) : ℤ :=
  if a - 2 < -360 then 0 else a - 2

/-- The rotation angle rendered at tick `k` (the closure in `runanimation`,
lines 156–168, starts at 0 and updates after each draw). -/
def angle : ℕ → ℤ
  | 0 => 0
  | k + 1 => angleStep (angle k)

lemma numPoints_eq : numPoints = 6 := rfl

lemma tmod_of_nonneg (i : ℤ) (hi : 0 ≤ i) : Int.tmod i (numPoints : ℤ) = i % 6 := by
  rw [numPoints_eq]
  exact Int.tmod_eq_emod hi (by norm_num)

lemma tmod_negSucc (m : ℕ) :
    Int.tmod (Int.negSucc m) (numPoints : ℤ) = -(((m + 1) % 6 : ℕ) : ℤ) := rfl

lemma angle_eq_of_le : ∀ k : ℕ, k ≤ 180 → angle k = -2 * (k : ℤ) := by
  intro k
  induction k with
  | zero => intro _; simp [angle]
  | succ n ih =>
    intro hk
    have hn := ih (Nat.le_of_succ_le hk)
    show angleStep (angle n) = _
    rw [hn]
    unfold angleStep
    rw [if_neg (by omega)]
    omega

/-- Claim C2 (counterexample): `getVertex` does not wrap at 4 — at the input
`i = 4` it returns the stored vertex (0.5, 0.5), not `getVertex (4 mod 4) =
getVertex 0 = (-0.5, -0.5)` — and at the negative input `i = -1` the
truncated remainder is negative, the Float32Array reads are out of range,
and both components come back undefined, so indexing does not "always
succeed". -/
theorem getVertex_mod4_cex :
    getVertex 4 ≠ getVertex ((4 : ℤ) % 4) ∧ getVertex (-1) = (none, none) := by
  constructor
  · norm_num [getVertex, arrGet, verticesArr, numPoints,
      show Int.tmod 4 6 = 4 from by decide, show ((4 : ℤ) % 4) = 0 from by decide,
      show Int.tmod 0 6 = 0 from by decide,
      show Int.toNat 8 = 8 from rfl, show Int.toNat 9 = 9 from rfl,
      show Int.toNat 0 = 0 from rfl, show Int.toNat 1 = 1 from rfl]
  · norm_num [getVertex, arrGet, verticesArr, numPoints,
      show Int.tmod (-1) 6 = -1 from by decide]

/-- Claim C2 (amended): `getVertex` wraps at 6 (the stored pair count), not 4,
and only for nonnegative arguments: for `0 ≤ i`, `getVertex i` equals
`getVertex (i mod 6)` (mathematical modulo) and both components are defined;
for negative `i` not divisible by 6, JavaScript's truncated `%` is negative,
the array reads are out of range, and both components are undefined. -/
theorem getVertex_wrap_amended :
    (∀ i : ℤ, 0 ≤ i →
      getVertex i = getVertex (i % 6) ∧
      (getVertex i).1.isSome ∧ (getVertex i).2.isSome) ∧
    (∀ i : ℤ, i < 0 → ¬ (6 : ℤ) ∣ i → getVertex i = (none, none)) := by
  constructor
  · intro i hi
    have hmod : Int.tmod i (numPoints : ℤ) = i % 6 := tmod_of_nonneg i hi
    have hmod2 : Int.tmod (i % 6) (numPoints : ℤ) = i % 6 := by
      rw [tmod_of_nonneg (i % 6) (Int.emod_nonneg i (by norm_num))]
      omega
    have hcases : i % 6 = 0 ∨ i % 6 = 1 ∨ i % 6 = 2 ∨ i % 6 = 3 ∨
        i % 6 = 4 ∨ i % 6 = 5 := by omega
    refine ⟨?_, ?_⟩
    · simp only [getVertex, hmod, hmod2]
    · simp only [getVertex, hmod]
      rcases hcases with h | h | h | h | h | h <;>
        simp [h, arrGet, verticesArr]
  · intro i hneg hdvd
    obtain ⟨m, rfl⟩ := Int.eq_negSucc_of_lt_zero hneg
    have hk : (m + 1) % 6 ≠ 0 := by
      intro h0
      apply hdvd
      have h6 : (6 : ℤ) ∣ ((m + 1 : ℕ) : ℤ) := by
        exact_mod_cast Nat.dvd_of_mod_eq_zero h0
      rw [Int.negSucc_eq]
      exact_mod_cast h6.neg_right
    have hc : 1 ≤ (m + 1) % 6 := Nat.pos_of_ne_zero hk
    simp only [getVertex, tmod_negSucc]
    rw [arrGet, arrGet, if_neg (by omega), if_neg (by omega)]

/-- Claim C2 (amended, witness): at `i = 10`, `getVertex 10 = getVertex 4`
with both components defined, and at `i = -1 < 0` with `¬ 6 ∣ -1` the result
is `(none, none)`. -/
theorem getVertex_wrap_amended_witness :
    ((0 : ℤ) ≤ 10 ∧ getVertex 10 = getVertex ((10 : ℤ) % 6) ∧
      (getVertex 10).1.isSome ∧ (getVertex 10).2.isSome) ∧
    ((-1 : ℤ) < 0 ∧ ¬ (6 : ℤ) ∣ (-1) ∧ getVertex (-1) = (none, none)) :=
  ⟨⟨by norm_num, getVertex_wrap_amended.1 10 (by norm_num)⟩,
   ⟨by norm_num, by decide,
    getVertex_wrap_amended.2 (-1) (by norm_num) (by decide)⟩⟩

/-- Claim C3 (counterexample): at tick 180 the animation loop renders the
angle exactly -360, which lies outside the claimed half-open interval
(-360, 0]. -/
theorem angle_interval_cex : angle 180 = -360 ∧ ¬ (-360 < angle 180) := by
  have h := angle_eq_of_le 180 (by norm_num)
  norm_num at h
  exact ⟨h, by omega⟩

/-- Claim C3 (amended): every rendered rotation angle lies in the closed
interval [-360, 0]: the sawtooth starting at 0 with step -2 and reset rule
`if angle < -360 then 0` keeps the rendered value between -360 (inclusive,
reached at tick 180) and 0. -/
theorem angle_interval_closed : ∀ k : ℕ, -360 ≤ angle k ∧ angle k ≤ 0 := by
  intro k
  induction k with
  | zero => simp [angle]
  | succ n ih =>
    show -360 ≤ angleStep (angle n) ∧ angleStep (angle n) ≤ 0
    unfold angleStep
    split <;> omega

/-- Claim C4: the rendered angle sequence is `-2k` at each tick `k ≤ 180`
(so tick 180 renders exactly -360), and the tick after that renders the
constant 0 again (the reset assigns 0, not a modulo remainder, which would
have given -2). -/
theorem angle_sequence :
    (∀ k : ℕ, k ≤ 180 → angle k = -2 * (k : ℤ)) ∧ angle 181 = 0 := by
  refine ⟨angle_eq_of_le, ?_⟩
  show angleStep (angle 180) = 0
  rw [angle_eq_of_le 180 (by norm_num)]
  norm_num [angleStep]

/-- Claim C4 (witness): at the concrete tick 5 the rendered angle is -10. -/
theorem angle_sequence_witness : (5 : ℕ) ≤ 180 ∧ angle 5 = -2 * ((5 : ℕ) : ℤ) :=
  ⟨by norm_num, angle_sequence.1 5 (by norm_num)⟩

/-- The projected pixel point of loop index `i` in `draw`
(line 115: `mapToViewport(...getVertex(i))`). -/
def projVertex (w h : ℚ) (i : ℕ) : ℚ × ℚ :=
  mapToViewport w h (getVertexN i).1 (getVertexN i).2

/-- The pivot pixel point captured by the first draw loop (line 119): the
branch `if (i == edge)` fires for exactly one loop index when
`edge < numPoints`, and for none otherwise (leaving `m` undefined). -/
def pivotPoint (w h : ℚ) (edge : ℕ) : Option (ℚ × ℚ) :=
  if edge < numPoints then some (projVertex w h edge) else none

lemma reachable_lt4 : ∀ s : ℕ, reachableEdge s → s < 4 := by
  intro s hs
  induction hs with
  | init => norm_num
  | step k t _ ih =>
    unfold onKey indexCoord
    split_ifs <;> simp_all

/-- Claim C6: the keydown handler ignores every key outside 'r','g','b','w'
(leaving the pivot index unchanged, with no failure), and maps those four
keys to pivot indices 0, 1, 2, 3 respectively, regardless of prior state. -/
theorem onKey_spec (k : Char) (e : ℕ) :
    (k ≠ 'r' → k ≠ 'g' → k ≠ 'b' → k ≠ 'w' → onKey k e = e) ∧
    onKey 'r' e = 0 ∧ onKey 'g' e = 1 ∧ onKey 'b' e = 2 ∧ onKey 'w' e = 3 := by
  refine ⟨fun h1 h2 h3 h4 => ?_, rfl, rfl, rfl, rfl⟩
  simp [onKey, h1, h2, h3, h4]

/-- Claim C6 (witness): from prior state 2, the unrecognized key 'x' is a
no-op and each recognized key sets its mapped index. -/
theorem onKey_spec_witness :
    ('x' ≠ 'r' ∧ 'x' ≠ 'g' ∧ 'x' ≠ 'b' ∧ 'x' ≠ 'w') ∧
    onKey 'x' 2 = 2 ∧ onKey 'r' 2 = 0 ∧ onKey 'g' 2 = 1 ∧
    onKey 'b' 2 = 2 ∧ onKey 'w' 2 = 3 :=
  ⟨by decide,
   (onKey_spec 'x' 2).1 (by decide) (by decide) (by decide) (by decide),
   (onKey_spec 'r' 2).2.1, (onKey_spec 'g' 2).2.2.1,
   (onKey_spec 'b' 2).2.2.2.1, (onKey_spec 'w' 2).2.2.2.2⟩

/-- Claim C7: the pivot index starts at 0 and every state reachable through
keydown events stays in {0,1,2,3}, which lies inside the valid vertex index
range (numPoints = 6), so the renderer's pivot lookup (the `i == edge`
branch of the first draw loop) finds a pivot point on every frame. -/
theorem pivot_index_valid :
    ∀ s : ℕ, reachableEdge s →
      s < 4 ∧ s < numPoints ∧ ∀ w h : ℚ, (pivotPoint w h s).isSome := by
  intro s hs
  have h4 : s < 4 := reachable_lt4 s hs
  have h6 : s < numPoints := lt_of_lt_of_le h4 (by norm_num [numPoints_eq])
  exact ⟨h4, h6, fun w h => by simp [pivotPoint, h6]⟩

/-- Claim C7 (witness): the state after pressing 'w' from the initial state
is 3, is reachable, and the pivot lookup succeeds there on a 100×100
surface. -/
theorem pivot_index_valid_witness :
    reachableEdge 3 ∧ 3 < 4 ∧ 3 < numPoints ∧ (pivotPoint 100 100 3).isSome := by
  have hr : reachableEdge 3 := reachableEdge.step 'w' 0 reachableEdge.init
  have h := pivot_index_valid 3 hr
  exact ⟨hr, h.1, h.2.1, h.2.2 100 100⟩

/-- Claim C8: `mapToViewport` is orientation-reversing in Y (for positive
window size and surface height, a strictly larger world Y gives a strictly
smaller pixel Y), and it sends the world origin (0,0) at window size 5 to
the surface center (w/2, h/2). -/
theorem mapToViewport_spec :
    (∀ w h n x y1 y2 : ℚ, 0 < n → 0 < h → y1 < y2 →
      (mapToViewport w h x y2 n).2 < (mapToViewport w h x y1 n).2) ∧
    (∀ w h : ℚ, mapToViewport w h 0 0 5 = (w / 2, h / 2)) := by
  constructor
  · intro w h n x y1 y2 hn hh hy
    show (-y2 + n / 2) * h / n < (-y1 + n / 2) * h / n
    rw [div_lt_div_iff₀ hn hn]
    have key : (-y2 + n / 2) * (h * n) < (-y1 + n / 2) * (h * n) :=
      mul_lt_mul_of_pos_right (by linarith) (mul_pos hh hn)
    nlinarith [key]
  · intro w h
    simp only [mapToViewport, Prod.mk.injEq]
    constructor <;> ring

/-- Claim C8 (witness): on a 200×100 surface with window size 5, raising
world Y from 0 to 1 lowers pixel Y from 50 to 30. -/
theorem mapToViewport_spec_witness :
    ((0 : ℚ) < 5 ∧ (0 : ℚ) < 100 ∧ (0 : ℚ) < 1 ∧
      (mapToViewport 200 100 0 1 5).2 < (mapToViewport 200 100 0 0 5).2) ∧
    mapToViewport 200 100 0 0 5 = (100, 50) :=
  ⟨⟨by norm_num, by norm_num, by norm_num,
    mapToViewport_spec.1 200 100 5 0 0 1 (by norm_num) (by norm_num) (by norm_num)⟩,
   by norm_num [mapToViewport]⟩

/-!
The rotation angle goes through `DOMMatrix.rotate`, which works in degrees
via real cosine and sine, so the transform built at line 119 and the points
drawn by the second loop (lines 123–127) are embedded over `ℝ`; the
geometry and viewport arithmetic is the same as the `ℚ` embedding above,
with the Float32Array entries coerced into `ℝ`.
-/

/-- Cosine of an angle given in degrees (`DOMMatrix.rotate` semantics). -/
noncomputable def cosDeg (θ : ℝ) : ℝ := Real.cos (θ * Real.pi / 180)

/-- Sine of an angle given in degrees (`DOMMatrix.rotate` semantics). -/
noncomputable def sinDeg (θ : ℝ) : ℝ := Real.sin (θ * Real.pi / 180)

/-- Applying a `DOMMatrix` translation by `(tx, ty)` to a point. -/
def translatePt (tx ty : ℝ) (p : ℝ × ℝ) : ℝ × ℝ := (p.1 + tx, p.2 + ty)

/-- Applying a `DOMMatrix` rotation by `θ` degrees to a point. -/
noncomputable def rotateDeg (θ : ℝ) (p : ℝ × ℝ) : ℝ × ℝ :=
  (cosDeg θ * p.1 - sinDeg θ * p.2, sinDeg θ * p.1 + cosDeg θ * p.2)

/-- The matrix `m` of line 119,
`matrix.translate(w-x, h-y, 0).rotate(rotation).translate(x-w, y-h, 0)`,
applied to a point as `point.matrixTransform(m)` does (DOMMatrix methods
post-multiply, so the translation by `(x-w, y-h)` hits the point first). -/
noncomputable def pivotTransform (w h px py θ : ℝ) (p : ℝ × ℝ) : ℝ × ℝ :=
  translatePt (w - px) (h - py) (rotateDeg θ (translatePt (px - w) (py - h) p))

/-- The viewport mapping of lines 85–87 over `ℝ`. -/
noncomputable def mapToViewportR (w h x y n : ℝ) : ℝ × ℝ :=
  ((x + n / 2) * w / n, (-y + n / 2) * h / n)

/-- The projected pixel point of loop index `i` (line 115) over `ℝ`. -/
noncomputable def projVertexR (w h : ℝ) (i : ℕ) : ℝ × ℝ :=
  mapToViewportR w h ((getVertexN i).1 : ℝ) ((getVertexN i).2 : ℝ) 5

/-- The pixel points drawn by the second loop of `draw` (lines 123–127):
when `edge < numPoints` the first loop captured the matrix of line 119 at
the pivot's projected point, and every projected point is pushed through
it; otherwise `m` stays undefined and `matrixTransform(undefined)` applies
the identity matrix (unreachable for the key-settable pivots 0–3). -/
noncomputable def drawnPointsDeg (θ : ℝ) (edge : ℕ) (w h : ℝ) : List (ℝ × ℝ) :=
  if edge < numPoints then
    (List.range numPoints).map (fun i =>
      pivotTransform w h (projVertexR w h edge).1 (projVertexR w h edge).2 θ
        (projVertexR w h i))
  else
    (List.range numPoints).map (fun i => projVertexR w h i)

lemma pivotTransform_zero (w h px py : ℝ) (p : ℝ × ℝ) :
    pivotTransform w h px py 0 p = p := by
  obtain ⟨p1, p2⟩ := p
  simp only [pivotTransform, translatePt, rotateDeg, cosDeg, sinDeg]
  norm_num
  constructor <;> ring

/-- Claim C1 (counterexample): on a 100×100 surface with the pivot's
projected point at (40, 60) (the projection of vertex 0) and a rotation of
180 degrees, the composed transform sends the pivot point to (80, 20), not
to itself, so the pivot is not a fixed point of the transform. -/
theorem pivot_not_fixed_cex :
    pivotTransform 100 100 40 60 180 (40, 60) = (80, 20) ∧
    pivotTransform 100 100 40 60 180 (40, 60) ≠ (40, 60) := by
  have hc : cosDeg 180 = -1 := by
    rw [cosDeg, show (180 : ℝ) * Real.pi / 180 = Real.pi by ring, Real.cos_pi]
  have hs : sinDeg 180 = 0 := by
    rw [sinDeg, show (180 : ℝ) * Real.pi / 180 = Real.pi by ring, Real.sin_pi]
  constructor
  · simp only [pivotTransform, translatePt, rotateDeg, hc, hs]
    norm_num
  · intro hcon
    have h1 := congrArg Prod.fst hcon
    simp only [pivotTransform, translatePt, rotateDeg, hc, hs] at h1
    norm_num at h1

/-- Claim C1 (amended): the three-step transform fixes the point
`(w - pivotX, h - pivotY)` — the reflection of the pivot's projected point
through the surface center — for every pivot point, surface size and
rotation angle; that reflection is exactly the projection of the opposite
world point `(-x, -y)` of the pivot's world vertex `(x, y)`.  The pivot's
own projected point is in general not fixed. -/
theorem pivotTransform_fixes_reflection :
    (∀ θ w h px py : ℝ,
      pivotTransform w h px py θ (w - px, h - py) = (w - px, h - py)) ∧
    (∀ θ w h x y : ℝ,
      pivotTransform w h (mapToViewportR w h x y 5).1 (mapToViewportR w h x y 5).2 θ
        (mapToViewportR w h (-x) (-y) 5) = mapToViewportR w h (-x) (-y) 5) := by
  have fix : ∀ θ w h px py : ℝ,
      pivotTransform w h px py θ (w - px, h - py) = (w - px, h - py) := by
    intro θ w h px py
    simp only [pivotTransform, translatePt, rotateDeg]
    norm_num
  refine ⟨fix, fun θ w h x y => ?_⟩
  have e1 : mapToViewportR w h (-x) (-y) 5 =
      (w - (mapToViewportR w h x y 5).1, h - (mapToViewportR w h x y 5).2) := by
    simp only [mapToViewportR, Prod.mk.injEq]
    constructor <;> ring
  rw [e1]
  exact fix θ w h _ _

/-- Claim C5: with rotation angle 0 the transform of line 119 is the
identity, so for every pivot index in range the drawn pixel points equal
the plain `mapToViewport` projections of all six loop vertices. -/
theorem zero_rotation_identity :
    ∀ (e : ℕ) (w h : ℝ), e < numPoints →
      drawnPointsDeg 0 e w h = (List.range numPoints).map (projVertexR w h) := by
  intro e w h he
  rw [drawnPointsDeg, if_pos he]
  simp only [pivotTransform_zero]

/-- Claim C5 (witness): at pivot index 0 on a 100×100 surface the zero
rotation draws the plain projections. -/
theorem zero_rotation_identity_witness :
    0 < numPoints ∧
    drawnPointsDeg 0 0 100 100 = (List.range numPoints).map (projVertexR 100 100) :=
  ⟨by norm_num [numPoints_eq], zero_rotation_identity 0 100 100 (by norm_num [numPoints_eq])⟩

lemma getVertexN_zero_eq_three : getVertexN 0 = getVertexN 3 := by
  norm_num [getVertexN, getVertex, arrGet, verticesArr, numPoints,
    show Int.tmod 0 6 = 0 from by decide, show Int.tmod 3 6 = 3 from by decide,
    show Int.toNat 6 = 6 from rfl, show Int.toNat 7 = 7 from rfl,
    show Int.toNat 0 = 0 from rfl, show Int.toNat 1 = 1 from rfl]

/-- Claim C10: the vertex list stores six pairs with duplicates — entries 0
and 3 are both (-0.5, -0.5) — the keys 'r' and 'w' map to pivot indices 0
and 3 which therefore select the same pivot point and draw identical pixel
points at every rotation angle and surface size, and the list entry 5,
(-0.5, 0.5), is never reachable as a pivot through the key handler. -/
theorem duplicate_pivot_vertices :
    numPoints = 6 ∧
    getVertexN 0 = (-(1/2), -(1/2)) ∧ getVertexN 3 = (-(1/2), -(1/2)) ∧
    getVertexN 5 = (-(1/2), 1/2) ∧
    indexCoord 'r' = some 0 ∧ indexCoord 'w' = some 3 ∧
    (∀ (θ w h : ℝ), drawnPointsDeg θ 0 w h = drawnPointsDeg θ 3 w h) ∧
    (∀ s : ℕ, reachableEdge s → s ≠ 5) := by
  have h03 : ∀ w h : ℝ, projVertexR w h 0 = projVertexR w h 3 := by
    intro w h
    rw [projVertexR, projVertexR, getVertexN_zero_eq_three]
  refine ⟨rfl, ?_, ?_, ?_, rfl, rfl, ?_, ?_⟩
  · norm_num [getVertexN, getVertex, arrGet, verticesArr, numPoints,
      show Int.tmod 0 6 = 0 from by decide,
      show Int.toNat 0 = 0 from rfl, show Int.toNat 1 = 1 from rfl]
  · norm_num [getVertexN, getVertex, arrGet, verticesArr, numPoints,
      show Int.tmod 3 6 = 3 from by decide,
      show Int.toNat 6 = 6 from rfl, show Int.toNat 7 = 7 from rfl]
  · norm_num [getVertexN, getVertex, arrGet, verticesArr, numPoints,
      show Int.tmod 5 6 = 5 from by decide,
      show Int.toNat 10 = 10 from rfl, show Int.toNat 11 = 11 from rfl]
  · intro θ w h
    rw [drawnPointsDeg, drawnPointsDeg,
      if_pos (show 0 < numPoints by norm_num [numPoints_eq]),
      if_pos (show 3 < numPoints by norm_num [numPoints_eq]), h03 w h]
  · intro s hs
    have := reachable_lt4 s hs
    omega

/-- Claim C10 (witness): the initial pivot state 0 is reachable and is not
the unreachable list entry 5. -/
theorem duplicate_pivot_vertices_witness : reachableEdge 0 ∧ (0 : ℕ) ≠ 5 :=
  ⟨reachableEdge.init, duplicate_pivot_vertices.2.2.2.2.2.2.2 0 reachableEdge.init⟩

/-!
Pixel-level model of the canvas for the idempotence claim.  The context
keeps a current default path that `ctx.rect` appends to and `ctx.beginPath`
clears, and `ctx.fill()` paints every pixel its path covers under the
NONZERO WINDING rule: the windings of all subpaths of the current path are
summed, and a pixel is filled when the sum is nonzero, so subpaths of
opposite orientation cancel.  `draw` calls `ctx.rect` (line 107) WITHOUT a
preceding `beginPath`, so the polygon left over from the previous call is
still in the path when the white background fill runs; that polygon's
orientation (pixel-space shoelace -800 for the hexagon on a 100x100
surface) opposes the rectangle's (+20000), so inside the leftover polygon
the windings sum to zero and the white fill skips the region.  The winding
number is computed by the standard signed-crossing algorithm over `ℚ`.
The rotation enters the drawn points only through
`(cos rotation°, sin rotation°)`, kept as an abstract rational pair
`(co, si)` so the model stays executable; rotation 0 is `(1, 0)` and
rotation 180 is `(-1, 0)`.
-/

/-- An rgba fill color; line 106 sets white and line 131 teal. -/
structure Color where
  cr : ℕ
  cg : ℕ
  cb : ℕ
  ca : ℚ
deriving DecidableEq

/-- The background color `rgba(255, 255, 255, 1)` of line 106. -/
def white : Color := ⟨255, 255, 255, 1⟩

/-- The fill color `rgba(0, 204, 204, 1)` of line 131. -/
def teal : Color := ⟨0, 204, 204, 1⟩

/-- One subpath of the context's current default path: the rectangle added
by `ctx.rect` (line 107) or the closed polygon built by the
moveTo/lineTo/closePath calls (lines 125–128). -/
inductive SubPath where
  | rect : ℚ → ℚ → ℚ → ℚ → SubPath
  | poly : List (ℚ × ℚ) → SubPath

/-- Twice the signed area of the triangle a, b, p: positive when p is to
the left of the directed edge a→b. -/
def isLeft (a b p : ℚ × ℚ) : ℚ :=
  (b.1 - a.1) * (p.2 - a.2) - (p.1 - a.1) * (b.2 - a.2)

/-- Signed crossing contribution of the directed edge a→b to the winding
number about p (standard crossing rule: upward edges crossing the
horizontal ray at p with p strictly left count +1, downward ones with p
strictly right count -1). -/
def edgeWind (p a b : ℚ × ℚ) : ℤ :=
  if a.2 ≤ p.2 then
    (if p.2 < b.2 ∧ 0 < isLeft a b p then 1 else 0)
  else
    (if b.2 ≤ p.2 ∧ isLeft a b p < 0 then -1 else 0)

/-- The directed edges of a closed subpath: consecutive vertex pairs plus
the closing edge back to the first vertex (`closePath`, line 128). -/
def closedEdges (pts : List (ℚ × ℚ)) : List ((ℚ × ℚ) × (ℚ × ℚ)) :=
  pts.zip (pts.rotateLeft 1)

/-- The winding number of a closed subpath about a point: the sum of the
signed crossings of its edges. -/
def windingNumber (pts : List (ℚ × ℚ)) (p : ℚ × ℚ) : ℤ :=
  ((closedEdges pts).map (fun e => edgeWind p e.1 e.2)).sum

/-- The winding number a subpath contributes about a point; `ctx.rect`
adds its four corners in the order (x,y), (x+w,y), (x+w,y+h), (x,y+h)
prescribed by the HTML canvas specification. -/
def subWind : SubPath → ℚ × ℚ → ℤ
  | SubPath.rect x0 y0 rw rh, p =>
      windingNumber [(x0, y0), (x0 + rw, y0), (x0 + rw, y0 + rh), (x0, y0 + rh)] p
  | SubPath.poly pts, p => windingNumber pts p

/-- The nonzero winding rule of `ctx.fill()`: a point is filled when the
windings of ALL subpaths of the current path sum to a nonzero value
(subpaths of opposite orientation cancel — this is not a union of
per-subpath regions). -/
def covers (path : List SubPath) (p : ℚ × ℚ) : Bool :=
  decide ((path.map (fun sub => subWind sub p)).sum ≠ 0)

/-- The canvas context state `draw` touches: the current default path and
the pixel buffer. -/
structure Canvas where
  path : List SubPath
  buffer : ℚ × ℚ → Color

/-- `ctx.fill()`: paint every pixel the current path covers under the
nonzero winding rule with the current fill style. -/
def fill (col : Color) (s : Canvas) : Canvas :=
  { s with buffer := fun p => if covers s.path p then col else s.buffer p }

/-- The matrix of line 119 applied to a point, with the rotation's cosine
and sine abstracted as `(co, si)` (same three-step composition as
`pivotTransform`). -/
def pivotTransformCS (w h px py co si : ℚ) (p : ℚ × ℚ) : ℚ × ℚ :=
  (co * (p.1 + (px - w)) - si * (p.2 + (py - h)) + (w - px),
   si * (p.1 + (px - w)) + co * (p.2 + (py - h)) + (h - py))

/-- The pixel points drawn by the second loop (lines 123–127), rotation
abstracted as `(co, si)`; same structure as `drawnPointsDeg`. -/
def drawnPointsCS (co si : ℚ) (edge : ℕ) (w h : ℚ) : List (ℚ × ℚ) :=
  if edge < numPoints then
    (List.range numPoints).map (fun i =>
      pivotTransformCS w h (projVertex w h edge).1 (projVertex w h edge).2 co si
        (projVertex w h i))
  else
    (List.range numPoints).map (fun i => projVertex w h i)

/-- One call of `draw` (lines 105–133) as a transformer of the canvas
state: append the full-surface rectangle to the existing path (line 107 —
no `beginPath` first, so a leftover polygon from the previous call is
still in the path when the white fill runs) and fill white; then
`beginPath` (line 110), build the closed polygon from the transformed
points (lines 123–128), and fill teal (lines 131–132). -/
def draw (co si : ℚ) (edge : ℕ) (w h : ℚ) (s : Canvas) : Canvas :=
  let s1 : Canvas := { s with path := s.path ++ [SubPath.rect 0 0 w h] }
  let s2 := fill white s1
  let s3 : Canvas := { s2 with path := [] }
  let s4 : Canvas := { s3 with path := s3.path ++ [SubPath.poly (drawnPointsCS co si edge w h)] }
  fill teal s4

lemma rectWind_interior (w h : ℚ) (p : ℚ × ℚ) (h1 : 0 < p.1) (h2 : p.1 < w)
    (h3 : 0 < p.2) (h4 : p.2 < h) :
    windingNumber [(0, 0), (w, 0), (w, h), (0, h)] p = 1 := by
  have hh : (0 : ℚ) < h := h3.trans h4
  have e1 : edgeWind p (0, 0) (w, 0) = 0 := by
    rw [edgeWind, if_pos h3.le, if_neg]
    rintro ⟨hc, -⟩
    exact absurd hc (not_lt.2 h3.le)
  have e2 : edgeWind p (w, 0) (w, h) = 1 := by
    rw [edgeWind, if_pos h3.le, if_pos]
    refine ⟨h4, ?_⟩
    simp only [isLeft]
    nlinarith [mul_pos (sub_pos.2 h2) hh]
  have e3 : edgeWind p (w, h) (0, h) = 0 := by
    rw [edgeWind, if_neg (not_le.2 h4), if_neg]
    rintro ⟨hc, -⟩
    exact absurd hc (not_le.2 h4)
  have e4 : edgeWind p (0, h) (0, 0) = 0 := by
    rw [edgeWind, if_neg (not_le.2 h4), if_neg]
    rintro ⟨-, hc⟩
    simp only [isLeft] at hc
    nlinarith [mul_pos h1 hh]
  show edgeWind p (0, 0) (w, 0) + (edgeWind p (w, 0) (w, h) +
    (edgeWind p (w, h) (0, h) + (edgeWind p (0, h) (0, 0) + 0))) = 1
  rw [e1, e2, e3, e4]
  norm_num

lemma rect_subWind (w h : ℚ) (p : ℚ × ℚ) (h1 : 0 < p.1) (h2 : p.1 < w)
    (h3 : 0 < p.2) (h4 : p.2 < h) :
    subWind (SubPath.rect 0 0 w h) p = 1 := by
  have := rectWind_interior w h p h1 h2 h3 h4
  simp only [subWind, zero_add]
  exact this

lemma draw_idempotent_same_path :
    ∀ (co si : ℚ) (edge : ℕ) (w h : ℚ) (s : Canvas) (p : ℚ × ℚ),
      s.path = [] ∨ s.path = [SubPath.poly (drawnPointsCS co si edge w h)] →
      0 < p.1 → p.1 < w → 0 < p.2 → p.2 < h →
      (draw co si edge w h (draw co si edge w h s)).buffer p =
        (draw co si edge w h s).buffer p := by
  intro co si edge w h s p hpath h1 h2 h3 h4
  have hrect := rect_subWind w h p h1 h2 h3 h4
  by_cases hW : windingNumber (drawnPointsCS co si edge w h) p = 0
  · have hc1 : covers [SubPath.poly (drawnPointsCS co si edge w h)] p = false := by
      simp [covers, subWind, hW]
    have hc2 : covers ([SubPath.poly (drawnPointsCS co si edge w h)] ++
        [SubPath.rect 0 0 w h]) p = true := by
      simp only [covers, List.map_append, List.map_cons, List.map_nil,
        List.sum_append, List.sum_cons, List.sum_nil, hrect]
      simp [subWind, hW]
    have hc3 : covers (s.path ++ [SubPath.rect 0 0 w h]) p = true := by
      rcases hpath with hp | hp <;> rw [hp]
      · simp only [List.nil_append, covers, List.map_cons, List.map_nil,
          List.sum_cons, List.sum_nil, hrect]
        norm_num
      · exact hc2
    simp only [draw, fill, List.nil_append]
    simp [hc1, hc2, hc3]
  · have hc1 : covers [SubPath.poly (drawnPointsCS co si edge w h)] p = true := by
      simp [covers, subWind, hW]
    simp only [draw, fill, List.nil_append]
    simp [hc1]

lemma projVertex0 : projVertex 100 100 0 = (40, 60) := by
  norm_num [projVertex, mapToViewport, getVertexN, getVertex, arrGet, verticesArr,
    numPoints, show Int.tmod 0 6 = 0 from by decide,
    show Int.toNat 0 = 0 from rfl, show Int.toNat 1 = 1 from rfl]

lemma projVertex1 : projVertex 100 100 1 = (60, 60) := by
  norm_num [projVertex, mapToViewport, getVertexN, getVertex, arrGet, verticesArr,
    numPoints, show Int.tmod 1 6 = 1 from by decide,
    show Int.toNat 2 = 2 from rfl, show Int.toNat 3 = 3 from rfl]

lemma projVertex2 : projVertex 100 100 2 = (60, 40) := by
  norm_num [projVertex, mapToViewport, getVertexN, getVertex, arrGet, verticesArr,
    numPoints, show Int.tmod 2 6 = 2 from by decide,
    show Int.toNat 4 = 4 from rfl, show Int.toNat 5 = 5 from rfl]

lemma projVertex3 : projVertex 100 100 3 = (40, 60) := by
  norm_num [projVertex, mapToViewport, getVertexN, getVertex, arrGet, verticesArr,
    numPoints, show Int.tmod 3 6 = 3 from by decide,
    show Int.toNat 6 = 6 from rfl, show Int.toNat 7 = 7 from rfl]

lemma projVertex4 : projVertex 100 100 4 = (60, 40) := by
  norm_num [projVertex, mapToViewport, getVertexN, getVertex, arrGet, verticesArr,
    numPoints, show Int.tmod 4 6 = 4 from by decide,
    show Int.toNat 8 = 8 from rfl, show Int.toNat 9 = 9 from rfl]

lemma projVertex5 : projVertex 100 100 5 = (40, 40) := by
  norm_num [projVertex, mapToViewport, getVertexN, getVertex, arrGet, verticesArr,
    numPoints, show Int.tmod 5 6 = 5 from by decide,
    show Int.toNat 10 = 10 from rfl, show Int.toNat 11 = 11 from rfl]

lemma drawnPoints_rot0 :
    drawnPointsCS 1 0 0 100 100 =
      [(40, 60), (60, 60), (60, 40), (40, 60), (60, 40), (40, 40)] := by
  rw [drawnPointsCS, if_pos (show 0 < numPoints by norm_num [numPoints_eq]),
    show List.range numPoints = [0, 1, 2, 3, 4, 5] from rfl]
  simp only [List.map_cons, List.map_nil, projVertex0, projVertex1, projVertex2,
    projVertex3, projVertex4, projVertex5]
  norm_num [pivotTransformCS]

lemma drawnPoints_rot180 :
    drawnPointsCS (-1) 0 0 100 100 =
      [(80, 20), (60, 20), (60, 40), (80, 20), (60, 40), (80, 40)] := by
  rw [drawnPointsCS, if_pos (show 0 < numPoints by norm_num [numPoints_eq]),
    show List.range numPoints = [0, 1, 2, 3, 4, 5] from rfl]
  simp only [List.map_cons, List.map_nil, projVertex0, projVertex1, projVertex2,
    projVertex3, projVertex4, projVertex5]
  norm_num [pivotTransformCS]

lemma wind_rot180_at :
    windingNumber [(80, 20), (60, 20), (60, 40), (80, 20), (60, 40), (80, 40)]
      (70, 25) = -1 := by
  show edgeWind (70, 25) (80, 20) (60, 20) + (edgeWind (70, 25) (60, 20) (60, 40) +
    (edgeWind (70, 25) (60, 40) (80, 20) + (edgeWind (70, 25) (80, 20) (60, 40) +
    (edgeWind (70, 25) (60, 40) (80, 40) + (edgeWind (70, 25) (80, 40) (80, 20) + 0))))) = -1
  norm_num [edgeWind, isLeft]

lemma wind_rot0_at :
    windingNumber [(40, 60), (60, 60), (60, 40), (40, 60), (60, 40), (40, 40)]
      (70, 25) = 0 := by
  show edgeWind (70, 25) (40, 60) (60, 60) + (edgeWind (70, 25) (60, 60) (60, 40) +
    (edgeWind (70, 25) (60, 40) (40, 60) + (edgeWind (70, 25) (40, 60) (60, 40) +
    (edgeWind (70, 25) (60, 40) (40, 40) + (edgeWind (70, 25) (40, 40) (40, 60) + 0))))) = 0
  norm_num [edgeWind, isLeft]

/-- The canvas state the renderer actually leaves behind right after
drawing the 180-degree frame on a 100x100 surface: the context path still
holds that frame's polygon, and the probed pixel (70, 25) is teal because
it lies inside that polygon (winding -1), so the 180-degree teal fill
painted it. -/
def prevCanvas : Canvas :=
  ⟨[SubPath.poly (drawnPointsCS (-1) 0 0 100 100)], fun _ => teal⟩

/-- A blank starting canvas: empty current path, all pixels white. -/
def blankCanvas : Canvas := ⟨[], fun _ => white⟩

/-- Claim C9 (counterexample): `draw` is not idempotent at the pixel
level, because the current path persists across calls and influences the
next call's output.  Starting from the state the renderer reaches right
after the 180-degree frame (`(co, si) = (-1, 0)` since `cosDeg 180 = -1`
and `sinDeg 180 = 0`), two consecutive angle-0 calls with identical
arguments disagree at the concrete pixel (70, 25): the first call leaves it
teal — the leftover polygon's winding -1 cancels the rectangle's +1, so
the white background fill skips it — while the second call paints it
white. -/
theorem draw_not_idempotent_cex :
    cosDeg 180 = -1 ∧ sinDeg 180 = 0 ∧
    (draw 1 0 0 100 100 prevCanvas).buffer (70, 25) = teal ∧
    (draw 1 0 0 100 100 (draw 1 0 0 100 100 prevCanvas)).buffer (70, 25) = white ∧
    teal ≠ white := by
  have hrect : subWind (SubPath.rect 0 0 100 100) (70, 25) = 1 :=
    rect_subWind 100 100 (70, 25) (by norm_num) (by norm_num) (by norm_num) (by norm_num)
  have hcA : covers [SubPath.poly (drawnPointsCS (-1) 0 0 100 100),
      SubPath.rect 0 0 100 100] (70, 25) = false := by
    simp only [covers, List.map_cons, List.map_nil, List.sum_cons, List.sum_nil, hrect]
    simp only [subWind, drawnPoints_rot180, wind_rot180_at]
    norm_num
  have hcB : covers [SubPath.poly (drawnPointsCS 1 0 0 100 100)] (70, 25) = false := by
    simp only [covers, List.map_cons, List.map_nil, List.sum_cons, List.sum_nil]
    simp only [subWind, drawnPoints_rot0, wind_rot0_at]
    norm_num
  have hcC : covers [SubPath.poly (drawnPointsCS 1 0 0 100 100),
      SubPath.rect 0 0 100 100] (70, 25) = true := by
    simp only [covers, List.map_cons, List.map_nil, List.sum_cons, List.sum_nil, hrect]
    simp only [subWind, drawnPoints_rot0, wind_rot0_at]
    norm_num
  refine ⟨?_, ?_, ?_, ?_, ?_⟩
  · rw [cosDeg, show (180 : ℝ) * Real.pi / 180 = Real.pi by ring, Real.cos_pi]
  · rw [sinDeg, show (180 : ℝ) * Real.pi / 180 = Real.pi by ring, Real.sin_pi]
  · simp only [draw, fill, prevCanvas, List.nil_append]
    simp [hcA, hcB]
  · simp only [draw, fill, prevCanvas, List.nil_append]
    simp [hcA, hcB, hcC]
  · intro hcon
    exact absurd (congrArg Color.cr hcon) (by norm_num [teal, white])

/-- Claim C9 (amended): `draw` does persist state across calls — it
always leaves its polygon as the context's current path — and repeating a
call is pixel-idempotent only from the starting states the same-angle
scenario actually produces: if the starting path is empty or is the
leftover polygon of an identical previous call, the second call leaves
every interior pixel exactly as the first call did, for every rotation
cosine/sine pair (rotation 0 is `(1, 0)`), pivot index, surface size and
pixel buffer. -/
theorem draw_idempotent_amended :
    cosDeg 0 = 1 ∧ sinDeg 0 = 0 ∧
    (∀ (co si : ℚ) (edge : ℕ) (w h : ℚ) (s : Canvas),
      (draw co si edge w h s).path = [SubPath.poly (drawnPointsCS co si edge w h)]) ∧
    (∀ (co si : ℚ) (edge : ℕ) (w h : ℚ) (s : Canvas) (p : ℚ × ℚ),
      s.path = [] ∨ s.path = [SubPath.poly (drawnPointsCS co si edge w h)] →
      0 < p.1 → p.1 < w → 0 < p.2 → p.2 < h →
      (draw co si edge w h (draw co si edge w h s)).buffer p =
        (draw co si edge w h s).buffer p) := by
  refine ⟨by simp [cosDeg], by simp [sinDeg], ?_, draw_idempotent_same_path⟩
  intro co si edge w h s
  simp [draw, fill]

/-- Claim C9 (amended, witness): two identical angle-0 `draw` calls on a
blank 100x100 canvas agree at the concrete interior pixel (50, 50). -/
theorem draw_idempotent_amended_witness :
    (blankCanvas.path = [] ∨
      blankCanvas.path = [SubPath.poly (drawnPointsCS 1 0 0 100 100)]) ∧
    ((0 : ℚ) < 50 ∧ (50 : ℚ) < 100) ∧
    (draw 1 0 0 100 100 (draw 1 0 0 100 100 blankCanvas)).buffer (50, 50) =
      (draw 1 0 0 100 100 blankCanvas).buffer (50, 50) :=
  ⟨Or.inl rfl, ⟨by norm_num, by norm_num⟩,
   draw_idempotent_amended.2.2.2 1 0 0 100 100 blankCanvas (50, 50) (Or.inl rfl)
     (by norm_num) (by norm_num) (by norm_num) (by norm_num)⟩

end RotatingSquare
